import Mathlib

/-!
# Verification of the qahub-vite test-plan tool's core algorithms

Shallow embedding of the two algorithmic components of
`src/CreateTestPlan.tsx`: the business-day scheduler
(`addBusinessDays`, the timeline auto-calculation effect) and the
scroll-progress-to-marker mapper (the `scrollYProgress` change handler,
together with the manual-override flag and timeout used by
`scrollToSection` / `handleScroll`).

Calendar dates are modelled as day indices (`Nat`): day index `d` has
JavaScript weekday `d % 7`, with `0` = Sunday and `6` = Saturday,
matching `Date.getDay()`.  Continuous scroll progress is modelled as a
rational number.  Wall-clock time for the override timer is modelled in
integer milliseconds.
-/

/-! ## Definitions: business-day scheduler -/

/-- `Date.getDay()` on the day-index model: `0` = Sunday … `6` = Saturday. -/
def dayOfWeek (d : Nat) : Nat := d % 7

/-- The weekend test used by the loop of `addBusinessDays`
(`CreateTestPlan.tsx` line 31): `dayOfWeek` is `0` (Sunday) or `6` (Saturday). -/
def isWeekend (d : Nat) : Bool := dayOfWeek d == 0 || dayOfWeek d == 6

/-- One full pass of the `while` loop of `addBusinessDays` up to (and
including) the next increment of `daysAdded`: advance one calendar day at a
time until the day reached is not a weekend day.  A weekend run is at most
two consecutive days, so at most three calendar steps are taken. -/
def nextBusinessDay (d : Nat) : Nat :=
  if ¬ isWeekend (d + 1) then d + 1
  else if ¬ isWeekend (d + 2) then d + 2
  else d + 3

/-- `addBusinessDays(startDate, numberOfDays)` (`CreateTestPlan.tsx`
lines 23–37, repeated verbatim at lines 3330–3343): starting from
`startDate`, advance day by day, counting only non-weekend days, until
`numberOfDays` of them have been counted; with `numberOfDays = 0` the loop
body never runs and the start date is returned unchanged.  Each recursive
step is one iteration of the outer count (`daysAdded`), performed by
`nextBusinessDay`. -/
def addBusinessDays (startDate : Nat) : Nat → Nat
  | 0 => startDate
  | n + 1 => addBusinessDays (nextBusinessDay startDate) n

/-- Number of non-weekend days among `d + 1, …, d + g` (the half-open count
used to state the business-day property). -/
def weekdaysUpFrom (d : Nat) : Nat → Nat
  | 0 => 0
  | g + 1 => weekdaysUpFrom d g + (if isWeekend (d + g + 1) then 0 else 1)

/-- Number of non-weekend days strictly after `d` and up to (including) `e`. -/
def weekdaysBetween (d e : Nat) : Nat := weekdaysUpFrom d (e - d)

/-! ## Definitions: scroll progress mapper

The `scrollYProgress` change handler of the execution-detail screen
(`CreateTestPlan.tsx` lines 703–731, repeated at lines 3799–3818) maps the
continuous progress value `v` to a discrete day-marker index by scanning
the marker positions from last to first. -/

/-- `dayPosition` for marker `i` out of `numDays` markers:
`(i / (numDays - 1)) * 100` (`CreateTestPlan.tsx` line 714), with the
subtraction and division taken over the rationals as in JavaScript
number arithmetic. -/
def dayPosition (numDays i : Nat) : ℚ := ((i : ℚ) / ((numDays : ℚ) - 1)) * 100

/-- The `for (let i = numDays - 1; i >= 0; i--)` scan of the change handler
(`CreateTestPlan.tsx` lines 712–719): starting from marker index `i` and
going downward, return the first index whose `dayPosition` does not exceed
`progressPercent`; `newActiveDay` stays at its initialisation value `0` when
no index qualifies (at index `0` both the hit and the fall-through produce
`0`). -/
def scanDays (numDays : Nat) (progressPercent : ℚ) : Nat → Nat
  | 0 => 0
  | i + 1 =>
    if dayPosition numDays (i + 1) ≤ progressPercent then i + 1
    else scanDays numDays progressPercent i

/-- The whole body of the change handler that computes `newActiveDay` from
the progress value `v` (`CreateTestPlan.tsx` lines 708–719):
`progressPercent = v * 100`, scanned from index `numDays - 1` down. -/
def computeActiveDay (numDays : Nat) (v : ℚ) : Nat :=
  scanDays numDays (v * 100) (numDays - 1)

/-- Modelled from the spec's words (claim C4): "the highest index `i` with
`i/(N-1)*100 ≤ progress*100`, and `0` when no index qualifies", expressed
with `Nat.findGreatest`, which returns the largest `i ≤ N - 1` satisfying
the predicate and `0` when none does. -/
def specActiveDay (numDays : Nat) (progressPercent : ℚ) : Nat :=
  Nat.findGreatest (fun i => dayPosition numDays i ≤ progressPercent) (numDays - 1)

/-! ## Definitions: manual-override state machine

`scrollToSection` (`CreateTestPlan.tsx` lines 1381–1407) sets the
`isManualScrollRef` flag, optimistically sets the active index, and arms a
`setTimeout` of 1000 ms that clears the flag; it never cancels a previously
armed timeout, so every past `scrollToSection` call keeps an outstanding
timer.  The scroll handler (`handleScroll`, lines 1328–1365) returns
without recomputing while the flag is set.  The state machine below models
this: `timers` is the multiset of outstanding `setTimeout` expiry times;
before any event is processed at wall-clock time `t`, every timer whose
expiry has been reached has already run on the single-threaded event loop,
and each such callback sets the flag to `false`.  The automatic recompute
performed when the flag is clear is the progress-based marker scan
`computeActiveDay` of the mapper. -/

/-- The `setTimeout` delay used by `scrollToSection`
(`CreateTestPlan.tsx` line 1406): 1000 ms. -/
def overrideDelay : Nat := 1000

structure MapperState where
  activeDay : Nat
  isManual : Bool
  timers : List Nat
  deriving Repr, DecidableEq

/-- Run every outstanding timer callback whose expiry time has been reached
by time `t`: each one executes `isManualScrollRef.current = false`
(`CreateTestPlan.tsx` line 1405), so the flag survives only when no timer
has expired; expired timers are removed from the outstanding set. -/
def fireTimers (t : Nat) (s : MapperState) : MapperState :=
  { s with
    isManual := s.isManual && s.timers.all (fun e => decide (t < e)),
    timers := s.timers.filter (fun e => decide (t < e)) }

/-- `scrollToSection` at wall-clock time `t`, targeting marker `K`
(`CreateTestPlan.tsx` lines 1381–1407): sets the manual flag, optimistically
sets the active index to `K`, and arms a new 1000 ms timeout without
cancelling any already outstanding one. -/
def jumpTo (t K : Nat) (s : MapperState) : MapperState :=
  let s' := fireTimers t s
  { s' with
    isManual := true,
    activeDay := K,
    timers := s'.timers ++ [t + overrideDelay] }

/-- One automatic update at wall-clock time `t` with progress value `v`:
a no-op on the active index while the manual flag is set
(`CreateTestPlan.tsx` lines 1332–1334), otherwise the recompute of the
active marker from the continuous progress value
(`CreateTestPlan.tsx` lines 708–721). -/
def continuousUpdate (numDays t : Nat) (v : ℚ) (s : MapperState) : MapperState :=
  let s' := fireTimers t s
  if s'.isManual then s'
  else { s' with activeDay := computeActiveDay numDays v }

/-- An externally observable event fed to the mapper: a manual jump or a
progress update, each stamped with its wall-clock time. -/
inductive MEvent where
  | jump (t K : Nat)
  | update (t : Nat) (v : ℚ)

def stepEvent (numDays : Nat) (s : MapperState) : MEvent → MapperState
  | .jump t K => jumpTo t K s
  | .update t v => continuousUpdate numDays t v s

def runEvents (numDays : Nat) (s : MapperState) (es : List MEvent) : MapperState :=
  es.foldl (stepEvent numDays) s

/-- The per-event active-day trace: feed the timed progress values through
`continuousUpdate` one after another and record the active index after each
call. -/
def traceActiveDays (numDays : Nat) (s : MapperState) : List (Nat × ℚ) → List Nat
  | [] => []
  | (t, v) :: rest =>
    let s' := continuousUpdate numDays t v s
    s'.activeDay :: traceActiveDays numDays s' rest

/-! ## Definitions: the timeline auto-calculation effect

The `useEffect` at `CreateTestPlan.tsx` lines 1150–1176 recomputes the
timeline start/end dates from the master-check phases and the review-day
count.  A phase entry is an arbitrary value that only contributes when it is
an object carrying `checked` and `days` keys; `phase.days || 0` coerces a
missing/zero/NaN duration to `0`.  -/

/-- A master-check phase entry as seen by the reduce at lines 1153–1158:
either a well-formed `{checked, days}` object or some malformed value
(not an object, or missing one of the two keys), which contributes nothing. -/
inductive PhaseVal where
  | valid (checked : Bool) (days : Nat)
  | malformed
  deriving Repr, DecidableEq

/-- The reduce over `Object.values(masterChecks)`
(`CreateTestPlan.tsx` lines 1153–1158): a well-formed checked phase adds its
(coerced) duration, an unchecked or malformed phase adds `0`. -/
def totalTestDays (phases : List PhaseVal) : Nat :=
  phases.foldl
    (fun sum p =>
      match p with
      | .valid c d => sum + (if c then d else 0)
      | .malformed => sum)
    0

/-- Modelled from the spec's words (claim C7): the duration a phase
contributes, namely its `durationDays` when enabled and `0` otherwise. -/
def enabledDuration : PhaseVal → Nat
  | .valid true d => d
  | _ => 0

/-- The timeline record (`CreateTestPlan.tsx` lines 1086–1090): calendar
strings for start and end plus the free-text dependencies field. -/
structure Timeline where
  start : String
  endDate : String
  dependencies : String
  deriving Repr, DecidableEq

/-- `formatDateToInput` (`CreateTestPlan.tsx` lines 42–47) renders a date as
its `YYYY-MM-DD` string; on the day-index date model the Gregorian
rendering is abstracted to the decimal rendering of the day index (an
injective rendering, which is all the claims use). -/
def formatDateToInput (d : Nat) : String := toString d

/-- The body of the timeline auto-calculation `useEffect`
(`CreateTestPlan.tsx` lines 1151–1172), with "today" passed explicitly:
when `totalDays > 0`, functionally update the timeline, spreading the
previous record and overwriting only `start` and `end`; otherwise perform
no state update at all. -/
def timelineAutoCalc (phases : List PhaseVal) (reviewDays today : Nat)
    (prev : Timeline) : Timeline :=
  let totalDays := totalTestDays phases + reviewDays
  if totalDays > 0 then
    { prev with
      start := formatDateToInput today,
      endDate := formatDateToInput (addBusinessDays today totalDays) }
  else prev

/-- The `try { … } catch (error) { console.error(…) }` wrapper around the
effect body (`CreateTestPlan.tsx` lines 1151–1175): a body that completes
normally yields its updated timeline; a body that throws is caught at the
call site — the error is only logged — and the previous timeline state
survives untouched.  No exception escapes. -/
def tryCatchTimeline (body : Timeline → Except String Timeline)
    (prev : Timeline) : Timeline :=
  match body prev with
  | .ok t => t
  | .error _ => prev

/-- The effect body as an `Except`-valued computation: on the embedded
(well-typed) inputs the computation always completes normally. -/
def timelineAutoCalcBody (phases : List PhaseVal) (reviewDays today : Nat)
    (prev : Timeline) : Except String Timeline :=
  .ok (timelineAutoCalc phases reviewDays today prev)

/-! ## Supporting lemmas: business days -/

theorem isWeekend_iff (d : Nat) : isWeekend d = true ↔ d % 7 = 0 ∨ d % 7 = 6 := by
  simp [isWeekend, dayOfWeek]

theorem isWeekend_eq_false_iff (d : Nat) :
    isWeekend d = false ↔ ¬ (d % 7 = 0 ∨ d % 7 = 6) := by
  rw [← isWeekend_iff]
  simp

theorem nextBusinessDay_gt (d : Nat) : d < nextBusinessDay d := by
  unfold nextBusinessDay
  split
  · omega
  · split <;> omega

theorem nextBusinessDay_not_weekend (d : Nat) :
    isWeekend (nextBusinessDay d) = false := by
  unfold nextBusinessDay
  split
  · next h => simpa using h
  · split
    · next h => simpa using h
    · next h1 h2 =>
      rw [not_not, isWeekend_iff] at h1 h2
      rw [isWeekend_eq_false_iff]
      omega

theorem weekdaysUpFrom_add (d a b : Nat) :
    weekdaysUpFrom d (a + b) = weekdaysUpFrom d a + weekdaysUpFrom (d + a) b := by
  induction b with
  | zero => simp [weekdaysUpFrom]
  | succ b ih =>
    show weekdaysUpFrom d ((a + b) + 1) = _
    simp only [weekdaysUpFrom]
    rw [ih, show d + (a + b) + 1 = d + a + b + 1 from by omega]
    omega

theorem weekdaysUpFrom_nextBusinessDay (d : Nat) :
    weekdaysUpFrom d (nextBusinessDay d - d) = 1 := by
  unfold nextBusinessDay
  split
  · next h =>
    have h1 : isWeekend (d + 1) = false := by simpa using h
    rw [show d + 1 - d = 1 from by omega]
    simp [weekdaysUpFrom, h1]
  · next h =>
    have h1 : isWeekend (d + 1) = true := by simpa using h
    split
    · next h2 =>
      have h2' : isWeekend (d + 2) = false := by simpa using h2
      rw [show d + 2 - d = 2 from by omega]
      simp [weekdaysUpFrom, h1, h2', show d + 1 + 1 = d + 2 from by omega]
    · next h2 =>
      have h2' : isWeekend (d + 2) = true := by simpa using h2
      have h3 : isWeekend (d + 3) = false := by
        rw [isWeekend_iff] at h1 h2'
        rw [isWeekend_eq_false_iff]
        omega
      rw [show d + 3 - d = 3 from by omega]
      simp [weekdaysUpFrom, h1, h2', h3,
        show d + 1 + 1 = d + 2 from by omega, show d + 2 + 1 = d + 3 from by omega]

theorem addBusinessDays_ge (startDate n : Nat) :
    startDate ≤ addBusinessDays startDate n := by
  induction n generalizing startDate with
  | zero => simp [addBusinessDays]
  | succ n ih =>
    calc startDate ≤ nextBusinessDay startDate := Nat.le_of_lt (nextBusinessDay_gt _)
      _ ≤ addBusinessDays (nextBusinessDay startDate) n := ih _
      _ = addBusinessDays startDate (n + 1) := rfl

theorem addBusinessDays_not_weekend (startDate n : Nat) (h : 1 ≤ n) :
    isWeekend (addBusinessDays startDate n) = false := by
  induction n generalizing startDate with
  | zero => omega
  | succ n ih =>
    show isWeekend (addBusinessDays (nextBusinessDay startDate) n) = false
    match n with
    | 0 => exact nextBusinessDay_not_weekend startDate
    | m + 1 => exact ih _ (by omega)

theorem addBusinessDays_count (startDate n : Nat) :
    weekdaysBetween startDate (addBusinessDays startDate n) = n := by
  induction n generalizing startDate with
  | zero => simp [addBusinessDays, weekdaysBetween, weekdaysUpFrom]
  | succ n ih =>
    show weekdaysBetween startDate (addBusinessDays (nextBusinessDay startDate) n) = n + 1
    have hd : startDate < nextBusinessDay startDate := nextBusinessDay_gt _
    have he : nextBusinessDay startDate ≤ addBusinessDays (nextBusinessDay startDate) n :=
      addBusinessDays_ge _ _
    unfold weekdaysBetween
    rw [show addBusinessDays (nextBusinessDay startDate) n - startDate =
          (nextBusinessDay startDate - startDate) +
          (addBusinessDays (nextBusinessDay startDate) n - nextBusinessDay startDate)
        from by omega]
    rw [weekdaysUpFrom_add,
        show startDate + (nextBusinessDay startDate - startDate) = nextBusinessDay startDate
        from by omega]
    have hc := ih (nextBusinessDay startDate)
    unfold weekdaysBetween at hc
    rw [weekdaysUpFrom_nextBusinessDay, hc]
    omega

/-! ## Supporting lemmas: marker scan -/

theorem scanDays_le (numDays : Nat) (pp : ℚ) (i : Nat) :
    scanDays numDays pp i ≤ i := by
  induction i with
  | zero => simp [scanDays]
  | succ i ih =>
    unfold scanDays
    split
    · exact Nat.le_refl _
    · omega

theorem dayPosition_zero (numDays : Nat) : dayPosition numDays 0 = 0 := by
  simp [dayPosition]

theorem scanDays_qualifies (numDays : Nat) (pp : ℚ) (hpp : 0 ≤ pp) (i : Nat) :
    dayPosition numDays (scanDays numDays pp i) ≤ pp := by
  induction i with
  | zero => simpa [scanDays, dayPosition_zero] using hpp
  | succ i ih =>
    unfold scanDays
    split
    · assumption
    · exact ih

theorem scanDays_maximal (numDays : Nat) (pp : ℚ) (i j : Nat)
    (hji : j ≤ i) (hq : dayPosition numDays j ≤ pp) :
    j ≤ scanDays numDays pp i := by
  induction i with
  | zero => omega
  | succ i ih =>
    unfold scanDays
    split
    · omega
    · next hc =>
      have hj : j ≤ i := by
        by_contra hcon
        have hji' : j = i + 1 := by omega
        subst hji'
        exact hc hq
      exact ih hj

theorem computeActiveDay_le (numDays : Nat) (v : ℚ) :
    computeActiveDay numDays v ≤ numDays - 1 :=
  scanDays_le numDays (v * 100) (numDays - 1)

theorem dayPosition_pos (numDays r : Nat) (hN : 2 ≤ numDays) (hr : 1 ≤ r) :
    0 < dayPosition numDays r := by
  unfold dayPosition
  have h1 : (0 : ℚ) < (r : ℚ) := by exact_mod_cast hr
  have h2 : (0 : ℚ) < (numDays : ℚ) - 1 := by
    have : (2 : ℚ) ≤ (numDays : ℚ) := by exact_mod_cast hN
    linarith
  have := div_pos h1 h2
  linarith

theorem dayPosition_last (numDays : Nat) (hN : 2 ≤ numDays) :
    dayPosition numDays (numDays - 1) = 100 := by
  unfold dayPosition
  have h2 : (0 : ℚ) < (numDays : ℚ) - 1 := by
    have : (2 : ℚ) ≤ (numDays : ℚ) := by exact_mod_cast hN
    linarith
  have hcast : ((numDays - 1 : Nat) : ℚ) = (numDays : ℚ) - 1 := by
    have h1 : 1 ≤ numDays := by omega
    push_cast [h1]
    ring
  rw [hcast, div_self (ne_of_gt h2), one_mul]

theorem computeActiveDay_at_zero (numDays : Nat) (hN : 2 ≤ numDays) :
    computeActiveDay numDays 0 = 0 := by
  by_contra hne
  have hr : 1 ≤ computeActiveDay numDays 0 := by omega
  have hq : dayPosition numDays (computeActiveDay numDays 0) ≤ 0 * 100 :=
    scanDays_qualifies numDays (0 * 100) (by norm_num) (numDays - 1)
  have hpos := dayPosition_pos numDays (computeActiveDay numDays 0) hN hr
  rw [zero_mul] at hq
  linarith

theorem computeActiveDay_at_one (numDays : Nat) (hN : 2 ≤ numDays) :
    computeActiveDay numDays 1 = numDays - 1 := by
  obtain ⟨k, hk⟩ : ∃ k, numDays - 1 = k + 1 := ⟨numDays - 2, by omega⟩
  unfold computeActiveDay
  rw [hk]
  unfold scanDays
  rw [if_pos]
  rw [← hk, dayPosition_last numDays hN]
  norm_num

/-! ## Supporting lemmas: override machine and scheduler -/

theorem runEvents_activeDay_le (numDays : Nat) (es : List MEvent) (s : MapperState)
    (hs : s.activeDay ≤ numDays - 1)
    (hes : ∀ t K, MEvent.jump t K ∈ es → K ≤ numDays - 1) :
    (runEvents numDays s es).activeDay ≤ numDays - 1 := by
  induction es generalizing s with
  | nil => simpa [runEvents] using hs
  | cons e es ih =>
    show (runEvents numDays (stepEvent numDays s e) es).activeDay ≤ numDays - 1
    apply ih
    · cases e with
      | jump t K =>
        have hK : K ≤ numDays - 1 := hes t K (by simp)
        simpa [stepEvent, jumpTo, fireTimers] using hK
      | update t v =>
        simp only [stepEvent, continuousUpdate]
        split
        · simpa [fireTimers] using hs
        · simpa [fireTimers] using computeActiveDay_le numDays v
    · intro t K hK
      exact hes t K (List.mem_cons_of_mem _ hK)

theorem totalTestDays_aux (phases : List PhaseVal) (acc : Nat) :
    phases.foldl
      (fun sum p =>
        match p with
        | .valid c d => sum + (if c then d else 0)
        | .malformed => sum)
      acc = acc + (phases.map enabledDuration).sum := by
  induction phases generalizing acc with
  | nil => simp
  | cons p ps ih =>
    cases p with
    | valid c d =>
      cases c
      · simp [List.foldl_cons, ih, enabledDuration]
      · simp [List.foldl_cons, ih, enabledDuration]
        omega
    | malformed =>
      simp [List.foldl_cons, ih, enabledDuration]

theorem totalTestDays_eq_sum (phases : List PhaseVal) :
    totalTestDays phases = (phases.map enabledDuration).sum := by
  unfold totalTestDays
  simpa using totalTestDays_aux phases 0

/-! ## Claims -/

/-- Claim C1, counterexample: the claim asserts that for every date `d` and
every `n ≥ 0`, `addBusinessDays(d, n)` never lands on a Saturday or Sunday.
With `n = 0` the loop body never runs (`daysAdded < 0` is false at once), so
a Saturday start — day index 6 — is returned unchanged, and the result is a
Saturday. -/
theorem C1_counterexample :
    isWeekend (addBusinessDays 6 0) = true ∧ dayOfWeek (addBusinessDays 6 0) = 6 := by
  decide

/-- Claim C1, amended: for every date `d`, `addBusinessDays(d, n)` with
`n ≥ 1` never lands on a Saturday or Sunday, and exactly `n` non-weekend
days lie between `d` (exclusive) and the result (inclusive); with `n = 0`
the start date is returned unchanged (so the count is trivially `0`, but a
weekend start stays a weekend day). -/
theorem C1_amended (d n : Nat) (h : 1 ≤ n) :
    isWeekend (addBusinessDays d n) = false ∧
    weekdaysBetween d (addBusinessDays d n) = n ∧
    addBusinessDays d 0 = d :=
  ⟨addBusinessDays_not_weekend d n h, addBusinessDays_count d n, rfl⟩

/-- Claim C1, witness: the amended theorem applied at the Saturday start
day 6 with `n = 3` business days. -/
theorem C1_witness :
    1 ≤ 3 ∧
    (isWeekend (addBusinessDays 6 3) = false ∧
     weekdaysBetween 6 (addBusinessDays 6 3) = 3 ∧
     addBusinessDays 6 0 = 6) :=
  ⟨by decide, C1_amended 6 3 (by decide)⟩

/-- Claim C2, counterexample: jumping to marker 3 at time 0 and to marker 4
at time 500 leaves the first 1000 ms timeout armed; at time 1100 — before
the claimed expiry 500 + 1000 = 1500 of the second override window — that
stale timeout has already cleared the flag, so a progress update recomputes
the index (here to marker 0) instead of holding marker 4. -/
theorem C2_counterexample :
    (continuousUpdate 6 1100 0 (jumpTo 500 4 (jumpTo 0 3 ⟨0, false, []⟩))).activeDay = 0 ∧
    1100 < 500 + overrideDelay := by
  constructor
  · norm_num [continuousUpdate, jumpTo, fireTimers, overrideDelay, computeActiveDay,
      scanDays, dayPosition]
  · norm_num [overrideDelay]

/-- Claim C2, amended: a second `jumpTo` before the first override window has
expired holds the index at the second target only until the FIRST window
expires: `scrollToSection` never cancels the earlier `setTimeout`, so that
stale callback clears the manual flag `overrideDelay` ms after the first
call, and an automatic update any time after that — even before the second
window's full delay has elapsed — recomputes the index from progress. -/
theorem C2_amended (K K' a : Nat) (b : Bool) (t0 t1 u u' : Nat) (v v' : ℚ)
    (_h01 : t0 ≤ t1) (h1 : t1 < t0 + overrideDelay)
    (_hu1 : t1 ≤ u) (hu2 : u < t0 + overrideDelay)
    (hw1 : t0 + overrideDelay ≤ u') (hw2 : u' < t1 + overrideDelay) :
    (jumpTo t1 K' (jumpTo t0 K ⟨a, b, []⟩)).activeDay = K' ∧
    (continuousUpdate 6 u v (jumpTo t1 K' (jumpTo t0 K ⟨a, b, []⟩))).activeDay = K' ∧
    (continuousUpdate 6 u' v' (jumpTo t1 K' (jumpTo t0 K ⟨a, b, []⟩))).activeDay
      = computeActiveDay 6 v' := by
  have hd1 : decide (t1 < t0 + overrideDelay) = true := by simpa using h1
  have e1 : jumpTo t0 K ⟨a, b, []⟩ = ⟨K, true, [t0 + overrideDelay]⟩ := by
    simp [jumpTo, fireTimers]
  have e2 : jumpTo t1 K' ⟨K, true, [t0 + overrideDelay]⟩
      = ⟨K', true, [t0 + overrideDelay, t1 + overrideDelay]⟩ := by
    simp [jumpTo, fireTimers, hd1]
  have hdu1 : decide (u < t0 + overrideDelay) = true := by simpa using hu2
  have hdu2 : decide (u < t1 + overrideDelay) = true := by
    simp only [decide_eq_true_eq]
    omega
  have e3 : continuousUpdate 6 u v ⟨K', true, [t0 + overrideDelay, t1 + overrideDelay]⟩
      = ⟨K', true, [t0 + overrideDelay, t1 + overrideDelay]⟩ := by
    simp [continuousUpdate, fireTimers, hdu1, hdu2]
  have hdw1 : decide (u' < t0 + overrideDelay) = false := by
    simp only [decide_eq_false_iff_not]
    omega
  have e4 : continuousUpdate 6 u' v' ⟨K', true, [t0 + overrideDelay, t1 + overrideDelay]⟩
      = { activeDay := computeActiveDay 6 v', isManual := false,
          timers := [t0 + overrideDelay, t1 + overrideDelay].filter
            (fun e => decide (u' < e)) } := by
    simp [continuousUpdate, fireTimers, hdw1]
  rw [e1, e2, e3, e4]
  exact ⟨rfl, rfl, rfl⟩

/-- Claim C2, witness: the amended theorem at jumps at times 0 and 500, an
update at 700 (still held at the second target) and an update at 1100
(already recomputed, although 1100 < 500 + 1000). -/
theorem C2_witness :
    (jumpTo 500 4 (jumpTo 0 3 ⟨0, false, []⟩)).activeDay = 4 ∧
    (continuousUpdate 6 700 1 (jumpTo 500 4 (jumpTo 0 3 ⟨0, false, []⟩))).activeDay = 4 ∧
    (continuousUpdate 6 1100 0 (jumpTo 500 4 (jumpTo 0 3 ⟨0, false, []⟩))).activeDay
      = computeActiveDay 6 0 :=
  C2_amended 3 4 0 false 0 500 700 1100 1 0
    (by norm_num) (by norm_num [overrideDelay]) (by norm_num)
    (by norm_num [overrideDelay]) (by norm_num [overrideDelay])
    (by norm_num [overrideDelay])

/-- Claim C3, counterexample: feeding the progress sequence
`[0.05, 0.25, 0.45, 0.65, 0.85, 0.99]` through `continuousUpdate` with no
overrides does NOT yield the active-marker sequence `[0, 1, 2, 3, 4, 5]`:
the last marker sits at normalized position 100 and `0.99 * 100 = 99 < 100`,
so the final update selects marker 4, not 5. -/
theorem C3_counterexample :
    traceActiveDays 6 ⟨0, false, []⟩
      [(0, 5/100), (100, 25/100), (200, 45/100), (300, 65/100), (400, 85/100),
       (500, 99/100)] ≠ [0, 1, 2, 3, 4, 5] := by
  norm_num [traceActiveDays, continuousUpdate, fireTimers, computeActiveDay,
    scanDays, dayPosition]

/-- Claim C3, amended: with 6 markers and no overrides, the progress sequence
`[0.05, 0.25, 0.45, 0.65, 0.85, 0.99]` fed through `continuousUpdate` yields
the active-marker sequence `[0, 1, 2, 3, 4, 4]`: each value selects the
highest marker whose position `i/5*100` it has reached, and `99 < 100` keeps
the final update at marker 4. -/
theorem C3_amended :
    traceActiveDays 6 ⟨0, false, []⟩
      [(0, 5/100), (100, 25/100), (200, 45/100), (300, 65/100), (400, 85/100),
       (500, 99/100)] = [0, 1, 2, 3, 4, 4] := by
  norm_num [traceActiveDays, continuousUpdate, fireTimers, computeActiveDay,
    scanDays, dayPosition]

/-- Claim C4: in automatic mode, for any `N ≥ 2` evenly spaced markers and
any progress value in `[0, 1]`, the recompute selects exactly the highest
index `i` with `i/(N-1)*100 ≤ progress*100` (defaulting to `0` when none
qualifies, as `Nat.findGreatest` does); in particular progress `0` selects
marker `0` and progress `1` selects the last marker `N - 1`. -/
theorem C4_auto_recompute (numDays : Nat) (p : ℚ) (hN : 2 ≤ numDays)
    (h0 : 0 ≤ p) (_h1 : p ≤ 1) :
    computeActiveDay numDays p = specActiveDay numDays (p * 100) ∧
    computeActiveDay numDays 0 = 0 ∧
    computeActiveDay numDays 1 = numDays - 1 := by
  refine ⟨?_, computeActiveDay_at_zero numDays hN, computeActiveDay_at_one numDays hN⟩
  have hpp : (0 : ℚ) ≤ p * 100 := mul_nonneg h0 (by norm_num)
  unfold specActiveDay
  apply Nat.le_antisymm
  · exact Nat.le_findGreatest (computeActiveDay_le numDays p)
      (scanDays_qualifies numDays (p * 100) hpp (numDays - 1))
  · set g := Nat.findGreatest (fun i => dayPosition numDays i ≤ p * 100) (numDays - 1) with hg
    have hgle : g ≤ numDays - 1 := by
      rw [hg]
      exact Nat.findGreatest_le _
    have hPg : dayPosition numDays g ≤ p * 100 := by
      rcases Nat.eq_zero_or_pos g with h0 | hpos
      · rw [h0, dayPosition_zero]
        exact hpp
      · exact (Nat.findGreatest_eq_iff.mp hg.symm).2.1 (by omega)
    exact scanDays_maximal numDays (p * 100) (numDays - 1) g hgle hPg

/-- Claim C4, witness: the theorem applied with 6 markers at progress `1/2`. -/
theorem C4_witness :
    computeActiveDay 6 (1/2) = specActiveDay 6 ((1/2) * 100) ∧
    computeActiveDay 6 0 = 0 ∧
    computeActiveDay 6 1 = 6 - 1 :=
  C4_auto_recompute 6 (1/2) (by norm_num) (by norm_num) (by norm_num)

/-- Claim C5: from a quiescent state (no outstanding timeout), after
`jumpTo(K)` at time `t0` the active index equals `K` immediately; a
`continuousUpdate` with any (contradicting) progress value inside the
override window still observes `K`; and once the window has elapsed, the
next `continuousUpdate` recomputes the index from its progress value. -/
theorem C5_override_window (K a : Nat) (b : Bool) (t0 t1 t2 : Nat) (v v' : ℚ)
    (_h01 : t0 ≤ t1) (h1 : t1 < t0 + overrideDelay) (h2 : t0 + overrideDelay ≤ t2) :
    (jumpTo t0 K ⟨a, b, []⟩).activeDay = K ∧
    (continuousUpdate 6 t1 v (jumpTo t0 K ⟨a, b, []⟩)).activeDay = K ∧
    (continuousUpdate 6 t2 v' (continuousUpdate 6 t1 v (jumpTo t0 K ⟨a, b, []⟩))).activeDay
      = computeActiveDay 6 v' := by
  have hd1 : decide (t1 < t0 + overrideDelay) = true := by simpa using h1
  have e1 : jumpTo t0 K ⟨a, b, []⟩ = ⟨K, true, [t0 + overrideDelay]⟩ := by
    simp [jumpTo, fireTimers]
  have e2 : continuousUpdate 6 t1 v ⟨K, true, [t0 + overrideDelay]⟩
      = ⟨K, true, [t0 + overrideDelay]⟩ := by
    simp [continuousUpdate, fireTimers, hd1]
  have hd2 : decide (t2 < t0 + overrideDelay) = false := by
    simp only [decide_eq_false_iff_not]
    omega
  have e3 : continuousUpdate 6 t2 v' ⟨K, true, [t0 + overrideDelay]⟩
      = ⟨computeActiveDay 6 v', false, []⟩ := by
    simp [continuousUpdate, fireTimers, hd2]
  rw [e1, e2, e3]
  exact ⟨rfl, rfl, rfl⟩

/-- Claim C5, witness: the theorem applied to a jump to marker 3 at time 0,
an update with progress 1 at time 500 (held at 3), and an update with
progress `1/2` at time 1000 (recomputed). -/
theorem C5_witness :
    (jumpTo 0 3 ⟨0, false, []⟩).activeDay = 3 ∧
    (continuousUpdate 6 500 1 (jumpTo 0 3 ⟨0, false, []⟩)).activeDay = 3 ∧
    (continuousUpdate 6 1000 (1/2) (continuousUpdate 6 500 1 (jumpTo 0 3 ⟨0, false, []⟩))).activeDay
      = computeActiveDay 6 (1/2) :=
  C5_override_window 3 0 false 0 500 1000 1 (1/2)
    (by norm_num) (by norm_num [overrideDelay]) (by norm_num [overrideDelay])

/-- Claim C6: when the enabled-phase total plus review days is zero, the
timeline auto-calculation produces no output: the previously stored
timeline — start, end and dependencies — is returned exactly as it was. -/
theorem C6_zero_total_no_output (phases : List PhaseVal) (reviewDays today : Nat)
    (prev : Timeline) (h : totalTestDays phases + reviewDays = 0) :
    timelineAutoCalc phases reviewDays today prev = prev := by
  unfold timelineAutoCalc
  rw [if_neg]
  omega

/-- Claim C6, witness: all phases disabled (plus one malformed entry) and
zero review days leave a concrete prior timeline untouched. -/
theorem C6_witness :
    totalTestDays [PhaseVal.valid false 5, PhaseVal.valid false 3, PhaseVal.malformed] + 0 = 0 ∧
    timelineAutoCalc [PhaseVal.valid false 5, PhaseVal.valid false 3, PhaseVal.malformed] 0 7
      ⟨"2024-01-01", "2024-02-02", "legacy deps"⟩
      = ⟨"2024-01-01", "2024-02-02", "legacy deps"⟩ :=
  ⟨by decide,
   C6_zero_total_no_output [PhaseVal.valid false 5, PhaseVal.valid false 3, PhaseVal.malformed]
     0 7 ⟨"2024-01-01", "2024-02-02", "legacy deps"⟩ (by decide)⟩

/-- Claim C7: the schedule total counts only enabled phases — it equals the
sum of `enabledDuration` over the phases plus the review days — and the
scenario `{A: enabled, days=3}, {B: disabled, days=100}` with 2 review days
produces exactly the same timeline as a single enabled 5-day phase with no
review days. -/
theorem C7_enabled_phases_only (phases : List PhaseVal) (reviewDays today : Nat)
    (prev : Timeline) :
    totalTestDays phases + reviewDays = (phases.map enabledDuration).sum + reviewDays ∧
    timelineAutoCalc [PhaseVal.valid true 3, PhaseVal.valid false 100] 2 today prev
      = timelineAutoCalc [PhaseVal.valid true 5] 0 today prev := by
  constructor
  · rw [totalTestDays_eq_sum]
  · norm_num [timelineAutoCalc, totalTestDays]

/-- Claim C8: an exception thrown anywhere inside the timeline computation is
caught by the `try/catch` at the call site, and the stored timeline state is
left unchanged; no error propagates to the caller. -/
theorem C8_catch_leaves_prior_timeline (body : Timeline → Except String Timeline)
    (prev : Timeline) (e : String) (h : body prev = .error e) :
    tryCatchTimeline body prev = prev := by
  unfold tryCatchTimeline
  rw [h]

/-- Claim C8, witness: a body that throws on malformed phase data leaves a
concrete prior timeline untouched. -/
theorem C8_witness :
    tryCatchTimeline (fun _ => Except.error "Error calculating timeline")
      ⟨"2024-01-01", "2024-02-02", "legacy deps"⟩
      = ⟨"2024-01-01", "2024-02-02", "legacy deps"⟩ :=
  C8_catch_leaves_prior_timeline (fun _ => Except.error "Error calculating timeline")
    ⟨"2024-01-01", "2024-02-02", "legacy deps"⟩ "Error calculating timeline" rfl

/-- Claim C9: starting from the initialised state (`activeDay = 0`), any
sequence of progress updates — with progress values unconstrained, also
outside `[0, 1]` — and jumps to valid markers (`K ≤ N - 1`) keeps the
active marker index within `[0, N - 1]`. -/
theorem C9_marker_index_invariant (numDays : Nat) (es : List MEvent)
    (hes : ∀ t K, MEvent.jump t K ∈ es → K ≤ numDays - 1) :
    (runEvents numDays ⟨0, false, []⟩ es).activeDay ≤ numDays - 1 :=
  runEvents_activeDay_le numDays es ⟨0, false, []⟩ (Nat.zero_le _) hes

/-- Claim C9, witness: with the 6 day markers, a jump to marker 3 followed by
updates with an out-of-range progress value `3/2` and a negative value keeps
the index within `[0, 5]`. -/
theorem C9_witness :
    (runEvents 6 ⟨0, false, []⟩
      [MEvent.jump 0 3, MEvent.update 1100 (3/2), MEvent.update 1200 (-1)]).activeDay
      ≤ 6 - 1 :=
  C9_marker_index_invariant 6
    [MEvent.jump 0 3, MEvent.update 1100 (3/2), MEvent.update 1200 (-1)]
    (by intro t K h; simp at h; omega)

/-- Claim C10: when the computation does produce output
(`totalDays > 0`), it overwrites only the start and end fields of the
timeline — start becomes today and end becomes today plus the total business
days — while the dependencies field keeps its previous value. -/
theorem C10_only_dates_overwritten (phases : List PhaseVal) (reviewDays today : Nat)
    (prev : Timeline) (h : 0 < totalTestDays phases + reviewDays) :
    (timelineAutoCalc phases reviewDays today prev).dependencies = prev.dependencies ∧
    (timelineAutoCalc phases reviewDays today prev).start = formatDateToInput today ∧
    (timelineAutoCalc phases reviewDays today prev).endDate
      = formatDateToInput (addBusinessDays today (totalTestDays phases + reviewDays)) := by
  unfold timelineAutoCalc
  rw [if_pos h]
  exact ⟨rfl, rfl, rfl⟩

/-- Claim C10, witness: one enabled 2-day phase and 1 review day overwrite
start and end of a concrete timeline while preserving its dependencies
text. -/
theorem C10_witness :
    (timelineAutoCalc [PhaseVal.valid true 2] 1 0 ⟨"s", "e", "legacy deps"⟩).dependencies
      = "legacy deps" ∧
    (timelineAutoCalc [PhaseVal.valid true 2] 1 0 ⟨"s", "e", "legacy deps"⟩).start
      = formatDateToInput 0 ∧
    (timelineAutoCalc [PhaseVal.valid true 2] 1 0 ⟨"s", "e", "legacy deps"⟩).endDate
      = formatDateToInput (addBusinessDays 0 (totalTestDays [PhaseVal.valid true 2] + 1)) :=
  C10_only_dates_overwritten [PhaseVal.valid true 2] 1 0 ⟨"s", "e", "legacy deps"⟩ (by decide)
